import Mathlib

/-!
Verification of the chunking logic of tarsplit (`src/directives.rs`).

The repository splits a TAR archive into several smaller archives along
entry boundaries.  The core consists of:

* the argument validation in `From<&clap::ArgMatches> for TarsplitDirectiveArgs`
  (lines 29-75), modelled by `parseDirectiveArgs`;
* the size planner `gen_chunk_size` (lines 78-105), modelled by
  `gen_chunk_size` over an exact model of the IEEE-754 binary64
  computation `((source_size as f64) / (num_chunks as f64)).round() as u64`;
* the entry loop of `tarsplit` (lines 159-213), modelled by
  `tarsplitChunks`: the loop keeps a running `current_chunk_size`, seals the
  current output archive whenever `current_chunk_size + entry_size >
  chunk_maximum_size`, and otherwise appends the entry, adding
  `512 + (if entry_size > 512 then entry_size else 512)` to the accumulator.

Entries are modelled abstractly: the writer is parametric in an entry type
`α` together with a size function `sz : α → Nat` (an entry's declared size
from its header), since the loop inspects nothing but the size and copies
each entry unchanged into the current output archive.
-/

/-- Minimum required size of tar archive/calculated chunks
(`MIN_ARCHIVE_SIZE`, directives.rs line 16). -/
def MIN_ARCHIVE_SIZE : Nat := 1024

/-- Minimum user-provided chunks number (`MIN_NUM_CHUNKS`, directives.rs line 18). -/
def MIN_NUM_CHUNKS : Nat := 2

/-- The amount added to `current_chunk_size` after appending an entry
(directives.rs line 207):
`512 + (if entry_size > 512 {entry_size} else {512})`. -/
def footAdd (s : Nat) : Nat := 512 + (if 512 < s then s else 512)

/-- The entry loop of `tarsplit` (directives.rs lines 169-212), with state
`acc = current_chunk_size` and `cur` the entries of the currently open
output archive.  Per entry: if `current_chunk_size + entry_size >
chunk_maximum_size` the current archive is finished (emitted), a fresh one
is opened and the accumulator is reset to 0; then the entry is appended and
the accumulator is increased by `footAdd`.  After the last entry the open
archive is finished unconditionally (line 212). -/
def chunkLoop {α : Type} (sz : α → Nat) (m : Nat) : List α → Nat → List α → List (List α)
  | [], _, cur => [cur]
  | e :: rest, acc, cur =>
    if m < acc + sz e then
      cur :: chunkLoop sz m rest (footAdd (sz e)) [e]
    else
      chunkLoop sz m rest (acc + footAdd (sz e)) (cur ++ [e])

/-- The sequence of output archives produced by the entry loop of
`tarsplit` (directives.rs lines 159-212), starting from
`current_chunk_size = 0` and an empty chunk with index 0. -/
def tarsplitChunks {α : Type} (sz : α → Nat) (m : Nat) (es : List α) : List (List α) :=
  chunkLoop sz m es 0 []

/-- Modelled from the spec (§4.2 step 1): an entry size rounded up to the
512-byte block alignment. -/
def roundUp512 (s : Nat) : Nat := ((s + 511) / 512) * 512

/-- Modelled from the spec (§4.2 step 1): the claimed footprint of an entry,
`512 (header) + max(512, entry_size rounded up to alignment)`. -/
def specFootprint (s : Nat) : Nat := 512 + max 512 (roundUp512 s)

/-- The accumulated size the code tracks for a finished chunk: the sum of
`footAdd` over its entries (this is exactly the final value of
`current_chunk_size` for that chunk). -/
def chunkFootSum {α : Type} (sz : α → Nat) (c : List α) : Nat :=
  (c.map (fun e => footAdd (sz e))).sum

/-- Modelled from the amended claim C1: the same splitting computed as a
left fold, sealing the current chunk before an entry exactly when
`current_chunk_size + entry_size > chunk_maximum_size` (raw declared size,
no non-emptiness guard), then appending and adding `footAdd`. -/
def amendedStep {α : Type} (sz : α → Nat) (m : Nat)
    (st : List (List α) × Nat × List α) (e : α) : List (List α) × Nat × List α :=
  if m < st.2.1 + sz e then (st.1 ++ [st.2.2], footAdd (sz e), [e])
  else (st.1, st.2.1 + footAdd (sz e), st.2.2 ++ [e])

/-- Modelled from the amended claim C1: fold `amendedStep` over the entry
stream and seal the final chunk unconditionally. -/
def amendedSpecChunks {α : Type} (sz : α → Nat) (m : Nat) (es : List α) : List (List α) :=
  (es.foldl (amendedStep sz m) ([], 0, [])).1 ++ [(es.foldl (amendedStep sz m) ([], 0, [])).2.2]

/-- Concatenating the produced chunks restores the input entry stream,
whatever the starting accumulator and open chunk. -/
theorem chunkLoop_flatten {α : Type} (sz : α → Nat) (m : Nat) :
    ∀ (es : List α) (acc : Nat) (cur : List α),
      (chunkLoop sz m es acc cur).flatten = cur ++ es := by
  intro es
  induction es with
  | nil => intro acc cur; simp [chunkLoop]
  | cons e rest ih =>
    intro acc cur
    rw [chunkLoop]
    split
    · simp [List.flatten_cons, ih]
    · simp [ih]

/-- `footAdd` exceeds the raw declared size by at most 1024. -/
theorem footAdd_le (s : Nat) : footAdd s ≤ s + 1024 := by
  unfold footAdd; split <;> omega

/-- Every chunk produced with at least two entries has accumulated size at
most `m + 1024`, provided the starting state satisfies the same bound. -/
theorem chunkLoop_bound {α : Type} (sz : α → Nat) (m : Nat) :
    ∀ (es : List α) (acc : Nat) (cur : List α),
      acc = chunkFootSum sz cur →
      (2 ≤ cur.length → acc ≤ m + 1024) →
      ∀ c ∈ chunkLoop sz m es acc cur, 2 ≤ c.length → chunkFootSum sz c ≤ m + 1024 := by
  intro es
  induction es with
  | nil =>
    intro acc cur hacc hbound c hc hlen
    simp [chunkLoop] at hc
    subst hc
    rw [← hacc]
    exact hbound hlen
  | cons e rest ih =>
    intro acc cur hacc hbound c hc hlen
    rw [chunkLoop] at hc
    split at hc
    · rcases List.mem_cons.mp hc with h | h
      · subst h
        rw [← hacc]
        exact hbound hlen
      · refine ih (footAdd (sz e)) [e] ?_ ?_ c h hlen
        · simp [chunkFootSum]
        · intro h2; simp at h2
    · rename_i hnoseal
      refine ih (acc + footAdd (sz e)) (cur ++ [e]) ?_ ?_ c hc hlen
      · simp [chunkFootSum, hacc]
      · intro _
        have h1 : acc + sz e ≤ m := by omega
        have h2 := footAdd_le (sz e)
        omega

/-- The recursive entry loop agrees with the fold-based presentation of the
amended splitting rule, for every starting state. -/
theorem chunkLoop_eq_foldl {α : Type} (sz : α → Nat) (m : Nat) :
    ∀ (es : List α) (done : List (List α)) (acc : Nat) (cur : List α),
      done ++ chunkLoop sz m es acc cur =
        (es.foldl (amendedStep sz m) (done, acc, cur)).1 ++
          [(es.foldl (amendedStep sz m) (done, acc, cur)).2.2] := by
  intro es
  induction es with
  | nil => intro done acc cur; simp [chunkLoop]
  | cons e rest ih =>
    intro done acc cur
    rw [chunkLoop, List.foldl_cons]
    by_cases h : m < acc + sz e
    · rw [if_pos h]
      have hstep : amendedStep sz m (done, acc, cur) e = (done ++ [cur], footAdd (sz e), [e]) := by
        simp [amendedStep, h]
      rw [hstep]
      have := ih (done ++ [cur]) (footAdd (sz e)) [e]
      simpa [List.append_assoc] using this
    · rw [if_neg h]
      have hstep : amendedStep sz m (done, acc, cur) e =
          (done, acc + footAdd (sz e), cur ++ [e]) := by
        simp [amendedStep, h]
      rw [hstep]
      exact ih done (acc + footAdd (sz e)) (cur ++ [e])

/-- C1 counterexample: the code seals a chunk exactly when
`current_chunk_size + entry_size > chunk_maximum_size`, with the raw
declared size and with no requirement that the current chunk be non-empty.
With maximum 1024 and a single entry of size 2000, the writer seals the
empty chunk 0 at the boundary crossing and emits `[[], [2000]]`,
contradicting "a chunk that contains no entries is never sealed at a
boundary crossing".  With maximum 1544 and entries of sizes 100 and 100 the
writer keeps both entries in one chunk, although the claimed rule (footprint
accounting: each entry has footprint 1024, and 1024 + 1024 > 1544, chunk
non-empty) would have sealed before the second entry. -/
theorem C1_counterexample :
    tarsplitChunks (fun s => s) 1024 [2000] = [[], [2000]] ∧
    tarsplitChunks (fun s => s) 1544 [100, 100] = [[100, 100]] ∧
    1544 < specFootprint 100 + specFootprint 100 := by
  refine ⟨rfl, rfl, by decide⟩

/-- C1 (amended): for every entry stream, the Chunk Writer seals the current
output archive, advances the chunk index, opens a new output archive and
resets the accumulated size to 0 before appending an entry if and only if
`current_chunk_size + entry_size > chunk_maximum_size`, where `entry_size`
is the raw declared size (not the footprint) and with no requirement that
the current chunk be non-empty (so an empty chunk is sealed when an entry's
raw size alone crosses the boundary).  Stated as: the writer coincides with
the fold of exactly that sealing rule over the entry stream. -/
theorem C1_amended {α : Type} (sz : α → Nat) (m : Nat) (es : List α) :
    tarsplitChunks sz m es = amendedSpecChunks sz m es := by
  have := chunkLoop_eq_foldl sz m es [] 0 []
  simpa [tarsplitChunks, amendedSpecChunks] using this

/-- C2 counterexample: for an entry of declared size 600 the code adds
`512 + 600 = 1112` to the accumulator while the claimed footprint is
`512 + 1024 = 1536` (600 rounded up to the 512-byte alignment); and the
boundary comparison uses the raw size: with maximum 2000 and entries of
sizes 600 and 800 the writer emits a single chunk, although under footprint
accounting `1536 + 1536 > 2000` would seal before the second entry. -/
theorem C2_counterexample :
    footAdd 600 = 1112 ∧ specFootprint 600 = 1536 ∧ footAdd 600 ≠ specFootprint 600 ∧
    tarsplitChunks (fun s => s) 2000 [600, 800] = [[600, 800]] := by
  refine ⟨rfl, by decide, by decide, rfl⟩

/-- C2 (amended): the amount added to the accumulated chunk size for an
entry is `512 + max(512, entry_size)` — the raw declared size with a
512-byte minimum, with no rounding up to the 512-byte block alignment —
and this equals the spec's footprint `512 + max(512, roundUp512 entry_size)`
exactly when the size is at most 512 or a multiple of 512.  (The boundary
comparison, by C1 amended, uses the raw declared size itself.) -/
theorem C2_amended (s : Nat) :
    footAdd s = 512 + max 512 s ∧
    (footAdd s = specFootprint s ↔ s ≤ 512 ∨ s % 512 = 0) := by
  unfold footAdd specFootprint roundUp512
  constructor
  · split <;> omega
  · split <;> omega

/-- C3 counterexample: with maximum chunk size 2000 and two entries of
declared size 0, the writer emits the single chunk `[0, 0]` whose
accumulated footprint is `1024 + 1024 = 2048 > 2000`, although the chunk
has two entries and no single entry's footprint (1024) exceeds the
maximum — so a sealed chunk can exceed the maximum without the documented
oversized-entry exception applying. -/
theorem C3_counterexample :
    tarsplitChunks (fun s => s) 2000 [0, 0] = [[0, 0]] ∧
    chunkFootSum (fun s => s) [0, 0] = 2048 ∧
    specFootprint 0 + specFootprint 0 = 2048 ∧
    specFootprint 0 ≤ 2000 ∧ 2000 < 2048 := by
  refine ⟨rfl, rfl, by decide, by decide, by decide⟩

/-- C3 (amended): in every run, every sealed chunk that contains at least
two entries has accumulated size (the code's accounting: `512 + max(512,
raw size)` per entry) at most `chunk_maximum_size + 1024`; chunks with at
most one entry are unrestricted (an oversized entry is placed in whatever
chunk is current).  The original bound `≤ maximum` fails because the
boundary comparison uses the raw size while the accumulator grows by the
header-and-padding amount. -/
theorem C3_amended {α : Type} (sz : α → Nat) (m : Nat) (es : List α)
    (c : List α) (hc : c ∈ tarsplitChunks sz m es) (hlen : 2 ≤ c.length) :
    chunkFootSum sz c ≤ m + 1024 := by
  refine chunkLoop_bound sz m es 0 [] ?_ ?_ c hc hlen
  · simp [chunkFootSum]
  · intro h; simp at h

/-- C3 amended, witnessed on a concrete run: the chunk `[0, 0]` produced
with maximum 2048 from entries `[0, 0]` satisfies the bound. -/
theorem C3_amended_witness :
    [0, 0] ∈ tarsplitChunks (fun s => s) 2048 [0, 0] ∧ 2 ≤ ([0, 0] : List Nat).length ∧
    chunkFootSum (fun s => s) [0, 0] ≤ 2048 + 1024 := by
  refine ⟨by decide, by decide, C3_amended (fun s => s) 2048 [0, 0] [0, 0] (by decide) (by decide)⟩

/-- C4: concatenating, in chunk-index order, the entries of all output
chunks yields exactly the ordered entry list of the source archive: no
entry is duplicated, dropped or reordered, and each entry is carried over
unchanged (the writer copies header, path and data of each entry as-is). -/
theorem C4_roundtrip {α : Type} (sz : α → Nat) (m : Nat) (es : List α) :
    (tarsplitChunks sz m es).flatten = es := by
  have := chunkLoop_flatten sz m es 0 []
  simpa [tarsplitChunks] using this

/-!
Exact model of the IEEE-754 binary64 computation in `gen_chunk_size`
(directives.rs line 84):
`((*source_size as f64) / (num_chunks.unwrap() as f64)).round() as u64`.

All values occurring there are non-negative, so a double is modelled as
either NaN, +infinity, or a finite non-negative value `m * 2 ^ e` with
`m : Nat`, `e : Int`.  Conversions and division round to nearest with ties
to even at 53 significand bits (round-to-nearest-even, the IEEE default);
`f64::round` rounds half away from zero; the `as u64` cast truncates toward
zero, saturates at `2 ^ 64 - 1`, and maps NaN to 0 (Rust semantics).
-/

/-- Fuel-driven floor of the base-2 logarithm (`log2n fuel n = ⌊log2 n⌋`
for `1 ≤ n < 2 ^ fuel`). -/
def log2n : Nat → Nat → Nat
  | 0, _ => 0
  | fuel + 1, n => if 2 ≤ n then log2n fuel (n / 2) + 1 else 0

/-- Floor of the base-2 logarithm, adequate for all inputs below `2 ^ 200`. -/
def ilog2 (n : Nat) : Nat := log2n 200 n

/-- Round the rational `N / D` (`D > 0`) to the nearest integer, ties to
even. -/
def roundHalfEven (N D : Nat) : Nat :=
  if 2 * (N % D) < D then N / D
  else if D < 2 * (N % D) then N / D + 1
  else if N / D % 2 = 0 then N / D else N / D + 1

/-- Exact value of `n as f64` for a `u64` value `n`: integers below `2 ^ 53`
are exact, larger ones are rounded to 53 significand bits (nearest, ties to
even). -/
def toF64val (n : Nat) : Nat :=
  if n < 2 ^ 53 then n
  else roundHalfEven n (2 ^ (ilog2 n - 52)) * 2 ^ (ilog2 n - 52)

/-- A non-negative binary64 value: NaN, +infinity, or a finite value
`m * 2 ^ e`. -/
inductive F64 where
  | nan : F64
  | inf : F64
  | fin : Nat → Int → F64
deriving DecidableEq

/-- Numerator of `A / B` scaled by `2 ^ s`: shifts `A` up when `s ≥ 0`. -/
def scaledNum (A : Nat) (s : Int) : Nat := if 0 ≤ s then A * 2 ^ s.toNat else A

/-- Denominator of `A / B` scaled by `2 ^ s`: shifts `B` up when `s < 0`. -/
def scaledDen (B : Nat) (s : Int) : Nat := if 0 ≤ s then B else B * 2 ^ (-s).toNat

/-- One step of correctly rounded division at a trial exponent `s0` chosen
so that the scaled quotient lies in `[2 ^ 51, 2 ^ 53)`: if it already lies
in `[2 ^ 52, 2 ^ 53)` round there, otherwise at `s0 + 1`; renormalise if
rounding overflows to `2 ^ 53`.  Returns the significand/exponent pair. -/
def fdivCore (A B : Nat) (s0 : Int) : Nat × Int :=
  if 2 ^ 52 ≤ scaledNum A s0 / scaledDen B s0 then
    if roundHalfEven (scaledNum A s0) (scaledDen B s0) = 2 ^ 53 then (2 ^ 52, 1 - s0)
    else (roundHalfEven (scaledNum A s0) (scaledDen B s0), -s0)
  else
    if roundHalfEven (scaledNum A (s0 + 1)) (scaledDen B (s0 + 1)) = 2 ^ 53 then (2 ^ 52, -s0)
    else (roundHalfEven (scaledNum A (s0 + 1)) (scaledDen B (s0 + 1)), -(s0 + 1))

/-- Correctly rounded binary64 division of two positive integer values
`A / B`: round the quotient to 53 significand bits, nearest, ties to
even. -/
def fdivFin (A B : Nat) : Nat × Int :=
  fdivCore A B (52 + (ilog2 B : Int) - (ilog2 A : Int))

/-- Binary64 division on the non-negative fragment, for integer operand
values `A` and `B`: `0/0` is NaN, `A/0` is +infinity for `A > 0`, `0/B` is
`0`, and positive finite quotients are correctly rounded by `fdivFin`. -/
def fdiv (A B : Nat) : F64 :=
  if B = 0 then (if A = 0 then F64.nan else F64.inf)
  else if A = 0 then F64.fin 0 0
  else F64.fin (fdivFin A B).1 (fdivFin A B).2

/-- `f64::round`: round half away from zero (on the non-negative fragment,
`⌊v + 1/2⌋`); NaN and infinity are unchanged. -/
def froundHalfAway : F64 → F64
  | F64.nan => F64.nan
  | F64.inf => F64.inf
  | F64.fin m e =>
    if 0 ≤ e then F64.fin m e
    else F64.fin ((m + 2 ^ ((-e).toNat - 1)) / 2 ^ (-e).toNat) 0

/-- The Rust `as u64` cast: truncate toward zero, saturate at
`2 ^ 64 - 1` (infinity included), NaN to 0. -/
def castU64 : F64 → Nat
  | F64.nan => 0
  | F64.inf => 2 ^ 64 - 1
  | F64.fin m e =>
    if 0 ≤ e then min (m * 2 ^ e.toNat) (2 ^ 64 - 1)
    else min (m / 2 ^ (-e).toNat) (2 ^ 64 - 1)

/-- The value computed at directives.rs line 84:
`((source_size as f64) / (num_chunks as f64)).round() as u64`. -/
def f64_chunk_size (source_size num_chunks : Nat) : Nat :=
  castU64 (froundHalfAway (fdiv (toF64val source_size) (toF64val num_chunks)))

/-- The panics `gen_chunk_size` can raise: `unwrapNone` for
`num_chunks.unwrap()` on `None` (line 84), `calculatedTooSmall` for
"Calculated chunk size must be at least {} bytes, try providing a lower
number of chunks (<{})" (lines 86-89), and `chunkSizeGeSource` for "Chunk
size must be less than source archive size ({} >= {})" (lines 95-101). -/
inductive ChunkSizeError where
  | unwrapNone : ChunkSizeError
  | calculatedTooSmall : Nat → Nat → ChunkSizeError
  | chunkSizeGeSource : Nat → Nat → ChunkSizeError
deriving DecidableEq

/-- `gen_chunk_size` (directives.rs lines 78-105), with panics modelled as
errors.  On the chunk-count path the maximum chunk size is the binary64
computation `f64_chunk_size`, rejected when below `MIN_ARCHIVE_SIZE`; on
the explicit-size path the given size is rejected when `>=` the source
size and returned unchanged otherwise. -/
def gen_chunk_size (chunk_size : Option Nat) (num_chunks : Option Nat)
    (source_size : Nat) : Except ChunkSizeError Nat :=
  match chunk_size with
  | none =>
    match num_chunks with
    | none => Except.error ChunkSizeError.unwrapNone
    | some nc =>
      if f64_chunk_size source_size nc < MIN_ARCHIVE_SIZE then
        Except.error (ChunkSizeError.calculatedTooSmall MIN_ARCHIVE_SIZE nc)
      else Except.ok (f64_chunk_size source_size nc)
  | some mcs =>
    if source_size ≤ mcs then
      Except.error (ChunkSizeError.chunkSizeGeSource mcs source_size)
    else Except.ok mcs

/-- Modelled from the spec (§4.1): the exact round-to-nearest value of the
rational quotient `a / b`, halves rounded up. -/
def specRoundNearest (a b : Nat) : Nat := (2 * a + b) / (2 * b)

/-- For positive `n`, `2 ^ log2n fuel n ≤ n`, whatever the fuel. -/
theorem log2n_le (fuel : Nat) : ∀ n : Nat, 1 ≤ n → 2 ^ log2n fuel n ≤ n := by
  induction fuel with
  | zero => intro n h; simpa [log2n] using h
  | succ f ih =>
    intro n h
    rw [log2n]
    split
    · rename_i h2
      have hx := ih (n / 2) (by omega)
      rw [pow_succ]
      omega
    · simpa using h

/-- For `n < 2 ^ fuel`, `n < 2 ^ (log2n fuel n + 1)`. -/
theorem log2n_lt (fuel : Nat) : ∀ n : Nat, n < 2 ^ fuel → n < 2 ^ (log2n fuel n + 1) := by
  induction fuel with
  | zero =>
    intro n h
    have h0 : n = 0 := by simpa using h
    subst h0
    simp [log2n]
  | succ f ih =>
    intro n h
    rw [log2n]
    split
    · rename_i h2
      have hdiv : n / 2 < 2 ^ f := by rw [pow_succ] at h; omega
      have hx := ih (n / 2) hdiv
      rw [pow_succ]
      omega
    · rename_i h2
      have : (2 : Nat) ^ (0 + 1) = 2 := by norm_num
      omega

/-- `roundHalfEven` never rounds down below the truncated quotient. -/
theorem roundHalfEven_ge (N D : Nat) : N / D ≤ roundHalfEven N D := by
  unfold roundHalfEven
  split
  · exact Nat.le_refl _
  · split
    · exact Nat.le_succ _
    · split
      · exact Nat.le_refl _
      · exact Nat.le_succ _

/-- `roundHalfEven` is exact on exact quotients. -/
theorem roundHalfEven_of_dvd (D k : Nat) (hD : 0 < D) :
    roundHalfEven (D * k) D = k := by
  unfold roundHalfEven
  rw [Nat.mul_mod_right, Nat.mul_div_cancel_left k hD]
  simp [hD]

/-- `toF64val` maps positive integers to positive values. -/
theorem toF64val_pos (n : Nat) (h : 0 < n) : 0 < toF64val n := by
  unfold toF64val
  split
  · exact h
  · rename_i h53
    have hle : 2 ^ ilog2 n ≤ n := log2n_le 200 n (by omega)
    have hmono : 2 ^ (ilog2 n - 52) ≤ 2 ^ ilog2 n :=
      Nat.pow_le_pow_right (by omega) (by omega)
    have hpow : 0 < 2 ^ (ilog2 n - 52) := Nat.pos_pow_of_pos _ (by omega)
    have hq : 1 ≤ n / 2 ^ (ilog2 n - 52) :=
      (Nat.one_le_div_iff hpow).mpr (le_trans hmono hle)
    have hr := roundHalfEven_ge n (2 ^ (ilog2 n - 52))
    exact Nat.mul_pos (by omega) hpow

/-- C10: with a chunk count of 0 and a source of at least the minimum
archive size, the planner does not fail: the binary64 division by zero
yields +infinity, `f64::round` leaves it unchanged, the `as u64` cast
saturates, and the result `2 ^ 64 - 1` passes the floor check, so the
planner returns `18446744073709551615`. -/
theorem C10_zero_chunks (s : Nat) (hs : MIN_ARCHIVE_SIZE ≤ s) :
    gen_chunk_size none (some 0) s = Except.ok (2 ^ 64 - 1) := by
  have hpos : 0 < toF64val s := toF64val_pos s (by unfold MIN_ARCHIVE_SIZE at hs; omega)
  have h0 : toF64val 0 = 0 := by unfold toF64val; norm_num
  have hinf : fdiv (toF64val s) (toF64val 0) = F64.inf := by
    rw [h0]; unfold fdiv; rw [if_pos rfl, if_neg (by omega)]
  have hred : gen_chunk_size none (some 0) s =
      if castU64 (froundHalfAway (fdiv (toF64val s) (toF64val 0))) < MIN_ARCHIVE_SIZE then
        Except.error (ChunkSizeError.calculatedTooSmall MIN_ARCHIVE_SIZE 0)
      else Except.ok (castU64 (froundHalfAway (fdiv (toF64val s) (toF64val 0)))) := rfl
  rw [hred, hinf]
  unfold froundHalfAway castU64 MIN_ARCHIVE_SIZE
  norm_num

/-- C10 witness: concrete instance with source size 2048. -/
theorem C10_zero_chunks_witness :
    MIN_ARCHIVE_SIZE ≤ 2048 ∧
    gen_chunk_size none (some 0) 2048 = Except.ok (2 ^ 64 - 1) :=
  ⟨by decide, C10_zero_chunks 2048 (by decide)⟩

/-- C6: on the explicit-size path the planner fails (with the "Chunk size
must be less than source archive size" panic) exactly when the explicit
size is at least the source size, and otherwise returns the explicit size
unchanged; the chunk-count argument is not consulted. -/
theorem C6_explicit_path (cs : Nat) (nc : Option Nat) (s : Nat) :
    gen_chunk_size (some cs) nc s =
      if s ≤ cs then Except.error (ChunkSizeError.chunkSizeGeSource cs s)
      else Except.ok cs := rfl

/-- C7: on the chunk-count path, whenever the computed (binary64-rounded)
quotient is below the fixed floor `MIN_ARCHIVE_SIZE = 1024`, the planner
fails, and the failure carries the floor and the offending chunk count —
the panic text "Calculated chunk size must be at least {} bytes, try
providing a lower number of chunks (<{})" suggests choosing a smaller
count. -/
theorem C7_count_below_floor (s nc : Nat)
    (h : f64_chunk_size s nc < MIN_ARCHIVE_SIZE) :
    gen_chunk_size none (some nc) s =
      Except.error (ChunkSizeError.calculatedTooSmall MIN_ARCHIVE_SIZE nc) := by
  have hred : gen_chunk_size none (some nc) s =
      if f64_chunk_size s nc < MIN_ARCHIVE_SIZE then
        Except.error (ChunkSizeError.calculatedTooSmall MIN_ARCHIVE_SIZE nc)
      else Except.ok (f64_chunk_size s nc) := rfl
  rw [hred, if_pos h]

/-- C7 witness: the spec's example `num_chunks = 3, source_size = 1024`
(the rounded quotient is 341 < 1024). -/
theorem C7_count_below_floor_witness :
    f64_chunk_size 1024 3 < MIN_ARCHIVE_SIZE ∧
    gen_chunk_size none (some 3) 1024 =
      Except.error (ChunkSizeError.calculatedTooSmall MIN_ARCHIVE_SIZE 3) :=
  ⟨by decide, C7_count_below_floor 1024 3 (by decide)⟩

/-- C5 counterexample: for `source_size = 27021597764222979` (which exceeds
`2 ^ 53` and is not exactly representable in binary64) and `num_chunks = 3`
the exact rational quotient is `9007199254740993`, an integer, so the exact
round-to-nearest value is `9007199254740993`; but the planner returns
`9007199254740994`: the source size is first rounded to the nearest
representable double `27021597764222980`, whose exact quotient by 3 is
`9007199254740993.33`; above `2 ^ 53` doubles are spaced 2 apart, so the
correctly rounded division yields `9007199254740994`, which `round` and the
cast leave unchanged.  The result passes the floor check, so the claim
fails on a valid input. -/
theorem C5_counterexample :
    gen_chunk_size none (some 3) 27021597764222979 = Except.ok 9007199254740994 ∧
    specRoundNearest 27021597764222979 3 = 9007199254740993 ∧
    (9007199254740994 : Nat) ≠ 9007199254740993 := by
  refine ⟨rfl, by norm_num [specRoundNearest], by norm_num⟩

/-- On inputs below `2 ^ 200`, `ilog2` is a lower-approximating logarithm. -/
theorem ilog2_le (n : Nat) (h : 1 ≤ n) : 2 ^ ilog2 n ≤ n := log2n_le 200 n h

/-- On inputs below `2 ^ 200`, `ilog2` is an upper-approximating logarithm. -/
theorem ilog2_lt (n : Nat) (h : n < 2 ^ 200) : n < 2 ^ (ilog2 n + 1) := log2n_lt 200 n h

/-- Rounding half away from zero of the exact value `Q * 2 ^ t / 2 ^ t`
recovers `Q` (for `t ≥ 1`). -/
theorem add_half_div (Q t : Nat) (ht : 1 ≤ t) :
    (Q * 2 ^ t + 2 ^ (t - 1)) / 2 ^ t = Q := by
  have hpow : 0 < 2 ^ t := Nat.pos_pow_of_pos t (by omega)
  have h1 : Q * 2 ^ t + 2 ^ (t - 1) = 2 ^ (t - 1) + 2 ^ t * Q := by ring
  have hlt : 2 ^ (t - 1) < 2 ^ t :=
    Nat.pow_lt_pow_right (by omega) (by omega)
  rw [h1, Nat.add_mul_div_left _ _ hpow, Nat.div_eq_of_lt hlt]
  omega

/-- `f64::round` on a finite non-negative value with negative exponent
`-t` adds half an ulp of the integer grid and truncates. -/
theorem fround_fin_neg (m t : Nat) (ht : 1 ≤ t) :
    froundHalfAway (F64.fin m (-(t : Int))) =
      F64.fin ((m + 2 ^ (t - 1)) / 2 ^ t) 0 := by
  simp only [froundHalfAway]
  rw [if_neg (by omega : ¬(0 : Int) ≤ -(t : Int))]
  norm_num

/-- The `as u64` cast of a finite value with exponent 0 below the
saturation bound is the significand itself. -/
theorem castU64_fin0 (Q : Nat) (hQ : Q < 2 ^ 64 - 1) :
    castU64 (F64.fin Q 0) = Q := by
  unfold castU64
  norm_num
  omega

/-- Correct rounding is exact on exact representable quotients: if
`b * Q < 2 ^ (la + 1)`, `2 ^ lb ≤ b`, `la ≤ 52` and `Q < 2 ^ 53`, then
dividing the integer values `b * Q` by `b` at trial exponent
`52 + lb - la`, rounding and casting back yields exactly `Q`. -/
theorem fdivCore_round_cast (b Q la lb : Nat) (hb : 0 < b)
    (hla2 : b * Q < 2 ^ (la + 1)) (hlb1 : 2 ^ lb ≤ b) (hla52 : la ≤ 52)
    (hQ53 : Q < 2 ^ 53) :
    castU64 (froundHalfAway (F64.fin
      (fdivCore (b * Q) b (52 + (lb : Int) - (la : Int))).1
      (fdivCore (b * Q) b (52 + (lb : Int) - (la : Int))).2)) = Q := by
  obtain ⟨t, ht⟩ : ∃ x, 52 + lb - la = x := ⟨_, rfl⟩
  have hs0 : (0 : Int) ≤ 52 + (lb : Int) - (la : Int) := by omega
  have hs0t : (52 + (lb : Int) - (la : Int)).toNat = t := by omega
  have hs1t : (52 + (lb : Int) - (la : Int) + 1).toNat = t + 1 := by omega
  have hpowt : 0 < 2 ^ t := Nat.pos_pow_of_pos t (by omega)
  -- scaled numerators and denominators at the two trial exponents
  have hsnum0 : scaledNum (b * Q) (52 + (lb : Int) - (la : Int)) = b * Q * 2 ^ t := by
    unfold scaledNum; rw [if_pos hs0, hs0t]
  have hsden0 : scaledDen b (52 + (lb : Int) - (la : Int)) = b := by
    unfold scaledDen; rw [if_pos hs0]
  have hsnum1 : scaledNum (b * Q) (52 + (lb : Int) - (la : Int) + 1) = b * Q * 2 ^ (t + 1) := by
    unfold scaledNum; rw [if_pos (by omega), hs1t]
  have hsden1 : scaledDen b (52 + (lb : Int) - (la : Int) + 1) = b := by
    unfold scaledDen; rw [if_pos (by omega)]
  -- the scaled quotients are exact
  have hnum0 : b * Q * 2 ^ t = b * (Q * 2 ^ t) := by ring
  have hnum1 : b * Q * 2 ^ (t + 1) = b * (Q * 2 ^ (t + 1)) := by ring
  have hquot0 : b * Q * 2 ^ t / b = Q * 2 ^ t := by
    rw [hnum0, Nat.mul_div_cancel_left _ hb]
  have hrhe0 : roundHalfEven (b * Q * 2 ^ t) b = Q * 2 ^ t := by
    rw [hnum0]; exact roundHalfEven_of_dvd b _ hb
  have hrhe1 : roundHalfEven (b * Q * 2 ^ (t + 1)) b = Q * 2 ^ (t + 1) := by
    rw [hnum1]; exact roundHalfEven_of_dvd b _ hb
  -- upper bound: the scaled quotient stays below 2 ^ 53
  have hub : Q * 2 ^ t < 2 ^ 53 := by
    have h1 : b * Q * 2 ^ t < 2 ^ (la + 1) * 2 ^ t :=
      Nat.mul_lt_mul_of_lt_of_le hla2 (Nat.le_refl _) hpowt
    have h2 : 2 ^ (la + 1) * 2 ^ t = 2 ^ 53 * 2 ^ lb := by
      rw [← pow_add, ← pow_add]; congr 1; omega
    have h3 : 2 ^ 53 * 2 ^ lb ≤ 2 ^ 53 * b := Nat.mul_le_mul_left _ hlb1
    have h4 : Q * 2 ^ t * b < 2 ^ 53 * b := by
      have h5 : Q * 2 ^ t * b = b * Q * 2 ^ t := by ring
      omega
    exact Nat.lt_of_mul_lt_mul_right h4
  have hQle : Q ≤ Q * 2 ^ t := Nat.le_mul_of_pos_right Q hpowt
  by_cases hbr : 2 ^ 52 ≤ Q * 2 ^ t
  · -- already normalised at the first trial exponent
    have hfdv : fdivCore (b * Q) b (52 + (lb : Int) - (la : Int)) =
        (Q * 2 ^ t, -(52 + (lb : Int) - (la : Int))) := by
      unfold fdivCore
      rw [hsnum0, hsden0, hquot0, if_pos hbr, hrhe0,
        if_neg (by omega : ¬Q * 2 ^ t = 2 ^ 53)]
    rw [hfdv]
    rcases Nat.eq_zero_or_pos t with ht0 | htpos
    · have hs00 : -(52 + (lb : Int) - (la : Int)) = 0 := by omega
      rw [hs00]
      have hteq : Q * 2 ^ t = Q := by rw [ht0, pow_zero, Nat.mul_one]
      rw [hteq]
      have hfr : froundHalfAway (F64.fin Q 0) = F64.fin Q 0 := by
        simp only [froundHalfAway]
        rw [if_pos (by omega : (0 : Int) ≤ 0)]
      rw [hfr]
      exact castU64_fin0 Q (by omega)
    · have hnegt : -(52 + (lb : Int) - (la : Int)) = -((t : Nat) : Int) := by omega
      rw [hnegt, fround_fin_neg _ t htpos, add_half_div Q t htpos]
      exact castU64_fin0 Q (by omega)
  · -- one shift up needed
    have hub1 : Q * 2 ^ (t + 1) < 2 ^ 53 := by
      have h1 : Q * 2 ^ (t + 1) = Q * 2 ^ t * 2 := by rw [pow_succ]; ring
      omega
    have hfdv : fdivCore (b * Q) b (52 + (lb : Int) - (la : Int)) =
        (Q * 2 ^ (t + 1), -(52 + (lb : Int) - (la : Int) + 1)) := by
      unfold fdivCore
      rw [hsnum0, hsden0, hquot0, if_neg hbr, hsnum1, hsden1, hrhe1,
        if_neg (by omega : ¬Q * 2 ^ (t + 1) = 2 ^ 53)]
    rw [hfdv]
    have hnegt : -(52 + (lb : Int) - (la : Int) + 1) = -(((t + 1 : Nat)) : Int) := by omega
    rw [hnegt, fround_fin_neg _ (t + 1) (by omega), add_half_div Q (t + 1) (by omega)]
    exact castU64_fin0 Q (by omega)

/-- The binary64 pipeline of line 84 is exact when the source size is
below `2 ^ 53` and the chunk count divides it. -/
theorem f64_chunk_size_exact (b Q : Nat) (hb : 0 < b) (hQ : 0 < Q)
    (ha : b * Q < 2 ^ 53) : f64_chunk_size (b * Q) b = Q := by
  have hApos : 0 < b * Q := Nat.mul_pos hb hQ
  have hblt : b < 2 ^ 53 := lt_of_le_of_lt (Nat.le_mul_of_pos_right b hQ) ha
  have htoA : toF64val (b * Q) = b * Q := by unfold toF64val; rw [if_pos ha]
  have htoB : toF64val b = b := by unfold toF64val; rw [if_pos hblt]
  have hla1 : 2 ^ ilog2 (b * Q) ≤ b * Q := ilog2_le _ (by omega)
  have hla2 : b * Q < 2 ^ (ilog2 (b * Q) + 1) := ilog2_lt _ (by calc
    b * Q < 2 ^ 53 := ha
    _ < 2 ^ 200 := Nat.pow_lt_pow_right (by omega) (by omega))
  have hlb1 : 2 ^ ilog2 b ≤ b := ilog2_le _ (by omega)
  have hla52 : ilog2 (b * Q) ≤ 52 := by
    by_contra hcon
    have h53 : (2 : Nat) ^ 53 ≤ 2 ^ ilog2 (b * Q) :=
      Nat.pow_le_pow_right (by omega) (by omega)
    omega
  have hQ53 : Q < 2 ^ 53 := lt_of_le_of_lt (Nat.le_mul_of_pos_left Q hb) ha
  have hfdiv : fdiv (b * Q) b = F64.fin (fdivFin (b * Q) b).1 (fdivFin (b * Q) b).2 := by
    unfold fdiv
    rw [if_neg (by omega), if_neg (by omega)]
  unfold f64_chunk_size
  rw [htoA, htoB, hfdiv]
  unfold fdivFin
  exact fdivCore_round_cast b Q (ilog2 (b * Q)) (ilog2 b) hb hla2 hlb1 hla52 hQ53

/-- C5 (amended): on the chunk-count path the planner computes
`round(source_size as f64 / num_chunks as f64) as u64`, a double-rounded
binary64 value rather than the exact rational rounding; the two agree only
when no rounding occurs.  In particular, whenever `source_size < 2 ^ 53`,
`num_chunks` is positive and divides `source_size`, and the quotient is at
least the floor, the planner returns exactly `source_size / num_chunks`
(which is the exact round-to-nearest value); for source sizes at or above
`2 ^ 53` (see the counterexample) the result can differ from the exact
rounding. -/
theorem C5_amended (a b : Nat) (hb : 0 < b) (_hb32 : b < 2 ^ 32)
    (ha : a < 2 ^ 53) (hdvd : b ∣ a) (hQ : MIN_ARCHIVE_SIZE ≤ a / b) :
    gen_chunk_size none (some b) a = Except.ok (a / b) := by
  obtain ⟨Q, rfl⟩ := hdvd
  rw [Nat.mul_div_cancel_left Q hb] at hQ ⊢
  have hQpos : 0 < Q := by unfold MIN_ARCHIVE_SIZE at hQ; omega
  have hexact : f64_chunk_size (b * Q) b = Q := f64_chunk_size_exact b Q hb hQpos ha
  have hred : gen_chunk_size none (some b) (b * Q) =
      if f64_chunk_size (b * Q) b < MIN_ARCHIVE_SIZE then
        Except.error (ChunkSizeError.calculatedTooSmall MIN_ARCHIVE_SIZE b)
      else Except.ok (f64_chunk_size (b * Q) b) := rfl
  rw [hred, hexact, if_neg (by omega)]

/-- C5 amended, witnessed at `source_size = 3072`, `num_chunks = 3`:
the planner returns exactly `3072 / 3 = 1024`. -/
theorem C5_amended_witness :
    (3 : Nat) ∣ 3072 ∧ MIN_ARCHIVE_SIZE ≤ 3072 / 3 ∧
    gen_chunk_size none (some 3) 3072 = Except.ok (3072 / 3) :=
  ⟨by decide, by decide,
    C5_amended 3072 3 (by decide) (by decide) (by decide) (by decide) (by decide)⟩

/-- The panics of the argument validation in
`From<&clap::ArgMatches> for TarsplitDirectiveArgs` (directives.rs lines
29-75): "Chunk size must be at least {}" (line 37), "Must provide either
chunk size or number of chunks" (line 46), and "Number of chunks must be
greater than {}" (line 52). -/
inductive ArgError where
  | chunkSizeTooSmall : Nat → ArgError
  | mustProvideOne : ArgError
  | numChunksEqMin : Nat → ArgError
deriving DecidableEq

/-- The argument validation of `From<&clap::ArgMatches> for
TarsplitDirectiveArgs` (directives.rs lines 32-56), over already-parsed
numeric values (string-to-number parsing and the path/prefix fields are
outside this model).  The chunk size, when given, must be at least
`MIN_ARCHIVE_SIZE`; when the chunk count is absent the chunk size must be
present; a given chunk count is rejected exactly when it equals
`MIN_NUM_CHUNKS` (the code tests `num_chunks == MIN_NUM_CHUNKS`, line 51).
Returns the validated (chunk_size, num_chunks) pair. -/
def parseDirectiveArgs (chunk_size num_chunks : Option Nat) :
    Except ArgError (Option Nat × Option Nat) := do
  let cs ← match chunk_size with
    | none => pure none
    | some c =>
      if c < MIN_ARCHIVE_SIZE then throw (ArgError.chunkSizeTooSmall c)
      else pure (some c)
  let nc ← match num_chunks with
    | none =>
      if cs = none then throw ArgError.mustProvideOne else pure none
    | some n =>
      if n = MIN_NUM_CHUNKS then throw (ArgError.numChunksEqMin n) else pure (some n)
  pure (cs, nc)

/-- C8: the argument validation rejects a chunk count exactly when it
equals 2 (`num_chunks == MIN_NUM_CHUNKS`, line 51) — counts 0 and 1 are
accepted, although the panic message "Number of chunks must be greater than
2" and the constant's documentation ("Minimum user-provided chunks number")
show the intent of rejecting every count `≤ 2`.  Counts 0 and 1 then flow
into the planner (see C10 for count 0; count 1 yields a degenerate
single-chunk split). -/
theorem C8_small_counts_accepted :
    parseDirectiveArgs none (some 0) = Except.ok (none, some 0) ∧
    parseDirectiveArgs none (some 1) = Except.ok (none, some 1) ∧
    parseDirectiveArgs none (some 2) = Except.error (ArgError.numChunksEqMin 2) ∧
    parseDirectiveArgs none (some 3) = Except.ok (none, some 3) := by
  refine ⟨rfl, rfl, rfl, rfl⟩

/-- C9: a request with neither chunk size nor chunk count fails with the
"Must provide either chunk size or number of chunks" panic, but a request
with both present is accepted — no mutual-exclusion check exists, despite
the CLI help text marking the two options as incompatible — and the planner
then silently uses the explicit chunk size, ignoring the count. -/
theorem C9_both_accepted :
    parseDirectiveArgs none none = Except.error ArgError.mustProvideOne ∧
    parseDirectiveArgs (some 2048) (some 5) = Except.ok (some 2048, some 5) ∧
    gen_chunk_size (some 2048) (some 5) 4096 = Except.ok 2048 := by
  refine ⟨rfl, rfl, rfl⟩
